import Mathlib

/-!
Verification development for the git-history-normaliser core:
policy validation (`synth/validation.py`), scope selection (`synth/scope.py`)
and the timestamp engine (`synth/engine.py`), shallowly embedded in Lean.

Conventions of the embedding:
* Timezone-aware instants are modelled as integers counting seconds on the
  local-naive timeline of the configured (fixed-offset) timezone; calendar
  dates are integers counting days since 1970-01-01 (a Thursday), so
  `day.weekday()` is `(d + 3) % 7` with Monday = 0.  Python's floor
  division / modulo on positive divisors correspond to `Int.ediv` /
  `Int.emod`.
* `scope.fraction` (a Python float restricted to [-1.0, 1.0]) is modelled
  as an exact rational.
* The seeded pseudo-random generator `random.Random(seed)` (standard
  library, outside this repository) is modelled abstractly as a stream of
  naturals consumed one draw at a time; `randint lo hi` maps a stream
  element into `[lo, hi]`.  An unseeded generator uses an ambient
  `entropy` stream supplied by the caller, which models the
  non-deterministic OS source.
* Python exceptions (`ScopeError`, `EngineError`, `ValidationError`)
  become `Except` results; `dict` results become association lists in
  insertion order, looked up with last-binding-wins semantics (`dget`).
-/

namespace Synth

/-- Commit record from `synth/repo.py` (presentation-only fields such as
`subject` or `author_name`, never read by the core, are omitted). -/
structure Commit where
  hash : String
  author_date : ℤ
  committer_date : ℤ
  index : ℕ
deriving DecidableEq, Repr

/-- Model of `config.TimestampConfig`. -/
structure TimestampConfig where
  mode : String
deriving DecidableEq, Repr

/-- Model of `config.ScopeConfig`; the float fraction is embedded as an exact rational. -/
structure ScopeConfig where
  fraction : ℚ
deriving DecidableEq, Repr

/-- Hour/minute of day, the payload of a parsed `HH:MM` time. -/
structure HM where
  hour : ℕ
  minute : ℕ
deriving DecidableEq, Repr

/-- Python `time` comparison is lexicographic on (hour, minute). -/
def HM.toMin (t : HM) : ℕ := t.hour * 60 + t.minute

/-- Resolved timezone (`validation._resolve_timezone`): either the fixed
zero-offset zone or a named IANA zone. -/
inductive Tz where
  | utc
  | zone (name : String)
deriving DecidableEq, Repr

/-- Model of `validation.ParsedCalendar`; `stop` is the source's `end` field
(`end` is reserved in Lean), both stored as epoch-day numbers. -/
structure ParsedCalendar where
  start : ℤ
  stop : ℤ
  timezone_name : String
  tz : Tz
deriving DecidableEq, Repr

/-- Model of `validation.ParsedWorkHours`; `stop` is the source's `end` field. -/
structure ParsedWorkHours where
  start : HM
  stop : HM
deriving DecidableEq, Repr

/-- Model of `validation.ParsedWorkBlock`. -/
structure ParsedWorkBlock where
  enabled : Bool
  hours : Option ParsedWorkHours
deriving DecidableEq, Repr

/-- Model of `validation.ParsedWorkPatterns`. -/
structure ParsedWorkPatterns where
  weekdays : ParsedWorkBlock
  saturday : ParsedWorkBlock
  sunday : ParsedWorkBlock
deriving DecidableEq, Repr

/-- Model of `validation.ParsedRandomness`. -/
structure ParsedRandomness where
  seed : Option ℤ
  gap_minutes_min : ℤ
  gap_minutes_max : ℤ
  seconds_min : ℤ
  seconds_max : ℤ
deriving DecidableEq, Repr

/-- Model of `validation.ValidatedConfig`. -/
structure ValidatedConfig where
  timestamp : TimestampConfig
  scope : ScopeConfig
  calendar : Option ParsedCalendar
  work_patterns : Option ParsedWorkPatterns
  randomness : Option ParsedRandomness
deriving DecidableEq, Repr

/-! ### Datetime arithmetic -/

/-- Model of `datetime.date()`: the calendar day an instant falls on. -/
def dtDay (t : ℤ) : ℤ := t / 86400

/-- Seconds elapsed since local midnight of the instant's day. -/
def secOfDay (t : ℤ) : ℤ := t % 86400

/-- Model of `datetime.combine(day, time(0, 0))`. -/
def midnight (day : ℤ) : ℤ := day * 86400

/-- Model of `datetime.combine(day, t)` for a time `s` seconds after midnight. -/
def combineDT (day : ℤ) (s : ℤ) : ℤ := day * 86400 + s

/-- Model of `date.weekday()`: Monday = 0 … Sunday = 6 (1970-01-01 was a Thursday). -/
def weekday (day : ℤ) : ℤ := (day + 3) % 7

/-! ### Pseudo-random generator model -/

/-- State of one `random.Random` instance: an abstract stream of raw draws
plus a cursor.  The stream stands for the (seeded) Mersenne-Twister
output, which is standard-library code outside this repository. -/
structure RngState where
  stream : ℕ → ℕ
  idx : ℕ

/-- Model of `rng.randint(lo, hi)`: an inclusive uniform integer draw.  The model
maps the next raw stream element into `[lo, hi]` (all call sites have
`lo ≤ hi`, enforced by validation or by an explicit source-level check). -/
def randint (r : RngState) (lo hi : ℤ) : ℤ × RngState :=
  (lo + (r.stream r.idx : ℤ) % (hi - lo + 1), ⟨r.stream, r.idx + 1⟩)

/-- Abstract model of the raw draw stream of `random.Random(s)` for a
concrete seed `s` (the Mersenne Twister itself is below the granularity
of this embedding; all theorems quantify over the stream or use only
the `[lo, hi]` range guarantee of `randint`). -/
def seedStream (s : ℤ) : ℕ → ℕ :=
  fun n => (s.natAbs + (n + 1) * 2654435761) % 4294967296

/-- Model of `random.Random(seed)`: seeded runs derive their stream from the seed
alone; unseeded runs (`seed is None`) draw from the ambient OS `entropy`. -/
def mkStream (seed : Option ℤ) (entropy : ℕ → ℕ) : ℕ → ℕ :=
  match seed with
  | some s => seedStream s
  | none => entropy

/-! ### Engine (`synth/engine.py`) -/

/-- Model of `engine._work_block_for_day`. -/
def work_block_for_day (day : ℤ) (work : ParsedWorkPatterns) : ParsedWorkBlock :=
  if weekday day ≤ 4 then work.weekdays
  else if weekday day = 5 then work.saturday
  else work.sunday

/-- Seconds after midnight of a work window's opening instant
(`hours.start` has second 0). -/
def window_start_sec (h : ParsedWorkHours) : ℤ :=
  (h.start.hour : ℤ) * 3600 + (h.start.minute : ℤ) * 60

/-- Seconds after midnight of a work window's closing instant: the `end`
minute is inclusive through its 59th second. -/
def window_end_sec (h : ParsedWorkHours) : ℤ :=
  (h.stop.hour : ℤ) * 3600 + (h.stop.minute : ℤ) * 60 + 59

/-- Model of `engine._window_bounds`. -/
def window_bounds (day : ℤ) (hours : ParsedWorkHours) : ℤ × ℤ :=
  (combineDT day (window_start_sec hours), combineDT day (window_end_sec hours))

/-- Model of `engine._pick_time_in_window`: draw a second-of-day in the window,
truncate to the minute, clamp, then add an independent second offset.
Returns the chosen time as seconds after midnight. -/
def pick_time_in_window (r : RngState) (hstart hstop : HM) (sec_min sec_max : ℤ) :
    Except String (ℤ × RngState) :=
  let start_s : ℤ := (hstart.hour : ℤ) * 3600 + (hstart.minute : ℤ) * 60
  let end_s : ℤ := (hstop.hour : ℤ) * 3600 + (hstop.minute : ℤ) * 60 + 59
  if end_s < start_s then .error "Invalid work window: end before start"
  else
    let p1 := randint r start_s end_s
    let aligned := p1.1 - p1.1 % 60
    let chosen := max start_s (min aligned end_s)
    let chosen_minute := chosen % 3600 / 60
    let chosen_hour := chosen / 3600
    let p2 := randint p1.2 sec_min sec_max
    .ok (chosen_hour * 3600 + chosen_minute * 60 + p2.1, p2.2)

/-- Model of `engine._random_datetime_for_day`. -/
def random_datetime_for_day (day : ℤ) (work : ParsedWorkPatterns) (r : RngState)
    (sec_min sec_max : ℤ) : Except String (ℤ × RngState) :=
  match (work_block_for_day day work).enabled, (work_block_for_day day work).hours with
  | true, some hrs =>
    match pick_time_in_window r hrs.start hrs.stop sec_min sec_max with
    | .ok (t, r2) => .ok (combineDT day t, r2)
    | .error e => .error e
  | _, _ => .error "Internal error: requested random time for a disabled day"

/-- Model of `engine._random_gap`: a gap of `randint(gap_min, gap_max)` minutes plus
`randint(sec_min, sec_max)` seconds. -/
def random_gap (r : RngState) (gap_min gap_max sec_min sec_max : ℤ) : ℤ × RngState :=
  let p1 := randint r gap_min gap_max
  let p2 := randint p1.2 sec_min sec_max
  (p1.1 * 60 + p2.1, p2.2)

/-- Day-scanning loop of `engine._next_enabled_day`.  The fuel counts the
days of `[day, stop]`; the wrapper supplies exactly enough, so fuel `0`
coincides with the loop having walked past `stop`. -/
def next_enabled_day_go (stop : ℤ) (work : ParsedWorkPatterns) :
    ℕ → ℤ → Except String ℤ
  | 0, _ => .error "Synthetic calendar window exhausted"
  | fuel + 1, day =>
    if stop < day then .error "Synthetic calendar window exhausted"
    else if (work_block_for_day day work).enabled then .ok day
    else next_enabled_day_go stop work fuel (day + 1)

/-- Model of `engine._next_enabled_day`. -/
def next_enabled_day (start stop : ℤ) (work : ParsedWorkPatterns) : Except String ℤ :=
  next_enabled_day_go stop work (stop + 1 - start).toNat start

/-- Day-advancing loop of `engine._next_valid_datetime` (fuel as in
`next_enabled_day_go`). -/
def next_valid_go (stop : ℤ) (work : ParsedWorkPatterns) (sec_min sec_max : ℤ) :
    ℕ → ℤ → ℤ → RngState → Except String (ℤ × RngState)
  | 0, _, _, _ => .error "Synthetic calendar window exhausted"
  | fuel + 1, day, candidate, r =>
    if stop < day then .error "Synthetic calendar window exhausted"
    else
      match (work_block_for_day day work).enabled, (work_block_for_day day work).hours with
      | true, some hrs =>
        if candidate < (window_bounds day hrs).1 then
          random_datetime_for_day day work r sec_min sec_max
        else if candidate ≤ (window_bounds day hrs).2 then .ok (candidate, r)
        else next_valid_go stop work sec_min sec_max fuel (day + 1) (midnight (day + 1)) r
      | _, _ => next_valid_go stop work sec_min sec_max fuel (day + 1) (midnight (day + 1)) r

/-- Model of `engine._next_valid_datetime`: advance `candidate` to the next instant
inside an enabled day's work window; never returns an earlier instant. -/
def next_valid_datetime (candidate : ℤ) (stop : ℤ) (work : ParsedWorkPatterns)
    (r : RngState) (sec_min sec_max : ℤ) : Except String (ℤ × RngState) :=
  next_valid_go stop work sec_min sec_max (stop + 1 - dtDay candidate).toNat
    (dtDay candidate) candidate r

/-- The `for commit in commits[1:]` loop of `engine._synthetic_mode`;
`acc` is the result dict in insertion order. -/
def synthetic_go (stop : ℤ) (work : ParsedWorkPatterns)
    (gap_min gap_max sec_min sec_max : ℤ) :
    List Commit → ℤ → RngState → List (String × ℤ) →
    Except String (List (String × ℤ))
  | [], _, _, acc => .ok acc
  | c :: cs, current, r, acc =>
    let g := random_gap r gap_min gap_max sec_min sec_max
    match next_valid_datetime (current + g.1) stop work g.2 sec_min sec_max with
    | .error e => .error e
    | .ok (cur2, r2) =>
      synthetic_go stop work gap_min gap_max sec_min sec_max cs cur2 r2
        (acc ++ [(c.hash, cur2)])

/-- Model of `engine._synthetic_mode`. -/
def synthetic_mode (entropy : ℕ → ℕ) (commits : List Commit)
    (config : ValidatedConfig) : Except String (List (String × ℤ)) :=
  match commits with
  | [] => .ok []
  | c0 :: rest =>
    match config.calendar, config.work_patterns, config.randomness with
    | some calendar, some work, some randomness =>
      let r0 : RngState := ⟨mkStream randomness.seed entropy, 0⟩
      match next_enabled_day calendar.start calendar.stop work with
      | .error e => .error e
      | .ok day0 =>
        match random_datetime_for_day day0 work r0 randomness.seconds_min
            randomness.seconds_max with
        | .error e => .error e
        | .ok (current, r1) =>
          synthetic_go calendar.stop work randomness.gap_minutes_min
            randomness.gap_minutes_max randomness.seconds_min
            randomness.seconds_max rest current r1 [(c0.hash, current)]
    | _, _, _ =>
      .error "Synthetic mode requires validated calendar, work_patterns, and randomness"

/-- Model of `engine._author_mode`. -/
def author_mode (commits : List Commit) : List (String × ℤ) :=
  commits.map fun c => (c.hash, c.author_date)

/-- Model of `engine._commit_mode`. -/
def commit_mode (commits : List Commit) : List (String × ℤ) :=
  commits.map fun c => (c.hash, c.committer_date)

/-- Model of `engine.compute_timestamps`. -/
def compute_timestamps (entropy : ℕ → ℕ) (commits : List Commit)
    (config : ValidatedConfig) : Except String (List (String × ℤ)) :=
  if config.timestamp.mode = "author" then .ok (author_mode commits)
  else if config.timestamp.mode = "commit" then .ok (commit_mode commits)
  else if config.timestamp.mode = "synthetic" then synthetic_mode entropy commits config
  else .error ("Unsupported timestamp mode: " ++ config.timestamp.mode)

/-- Python `dict` lookup for a dict built by insertions in list order:
the most recent binding of a key wins. -/
def dget (l : List (String × ℤ)) (k : String) : Option ℤ :=
  match l with
  | [] => none
  | (k2, v) :: t =>
    match dget t k with
    | some v2 => some v2
    | none => if k2 = k then some v else none

/-! ### Scope (`synth/scope.py`) -/

/-- Model of `scope.apply_scope`. -/
def apply_scope (commits : List Commit) (fraction : ℚ) :
    Except String (List Commit × List Commit) :=
  if ¬(-1 ≤ fraction ∧ fraction ≤ 1) then
    .error ("Invalid scope fraction: " ++ toString fraction)
  else
    let total := commits.length
    if total = 0 ∨ fraction = 0 then .ok ([], commits)
    else
      let k := (⌊|fraction| * total⌋).toNat
      if k = 0 then .ok ([], commits)
      else if 0 < fraction then .ok (commits.take k, commits.drop k)
      else .ok (commits.drop (total - k), commits.take (total - k))

/-! ### Validity invariants established by `validate_config` -/

/-- A parsed `HH:MM` time is in range. -/
def HM.Valid (t : HM) : Prop := t.hour ≤ 23 ∧ t.minute ≤ 59

/-- Work hours as validation produces them: in-range times, `end` after `start`. -/
def ParsedWorkHours.Valid (h : ParsedWorkHours) : Prop :=
  h.start.Valid ∧ h.stop.Valid ∧ h.start.toMin < h.stop.toMin

/-- A work block as validation produces it: hours present iff enabled, and valid. -/
def ParsedWorkBlock.Valid (b : ParsedWorkBlock) : Prop :=
  match b.hours with
  | none => b.enabled = false
  | some h => b.enabled = true ∧ h.Valid

/-- Validated work patterns: all three blocks well-formed. -/
def ParsedWorkPatterns.Valid (w : ParsedWorkPatterns) : Prop :=
  w.weekdays.Valid ∧ w.saturday.Valid ∧ w.sunday.Valid

/-- Validated randomness ranges. -/
def ParsedRandomness.Valid (r : ParsedRandomness) : Prop :=
  0 ≤ r.gap_minutes_min ∧ r.gap_minutes_min ≤ r.gap_minutes_max ∧
  0 ≤ r.seconds_min ∧ r.seconds_min ≤ r.seconds_max ∧ r.seconds_max ≤ 59

instance (t : HM) : Decidable t.Valid := by
  unfold HM.Valid; infer_instance

instance (h : ParsedWorkHours) : Decidable h.Valid := by
  unfold ParsedWorkHours.Valid; infer_instance

instance (b : ParsedWorkBlock) : Decidable b.Valid :=
  match hb : b.hours with
  | none => decidable_of_iff (b.enabled = false) (by simp [ParsedWorkBlock.Valid, hb])
  | some h => decidable_of_iff (b.enabled = true ∧ h.Valid)
      (by simp [ParsedWorkBlock.Valid, hb])

instance (w : ParsedWorkPatterns) : Decidable w.Valid := by
  unfold ParsedWorkPatterns.Valid; infer_instance

instance (r : ParsedRandomness) : Decidable r.Valid := by
  unfold ParsedRandomness.Valid; infer_instance

/-- An instant lies inside the configured work window of its own local
calendar day: that day's block is enabled, carries hours, and the
time-of-day falls in `[start, end]` inclusive through the end minute. -/
def InWindow (work : ParsedWorkPatterns) (t : ℤ) : Prop :=
  (work_block_for_day (dtDay t) work).enabled = true ∧
  ∃ hrs, (work_block_for_day (dtDay t) work).hours = some hrs ∧
    window_start_sec hrs ≤ secOfDay t ∧ secOfDay t ≤ window_end_sec hrs

/-! ### Validation (`synth/validation.py`)

The raw `calendar` / `work_patterns` / `randomness` sections arrive as
loosely-typed mappings (`Dict[str, Any]`); they are modelled as
association lists of `JVal` values.  A YAML `null` and an absent key are
indistinguishable through `dict.get`, so both are modelled as an absent
key.  `jother` stands for a value of any other runtime type (float,
list, …), on which every `isinstance` test in the source fails. -/

inductive JVal where
  | jstr (s : String)
  | jint (n : ℤ)
  | jbool (b : Bool)
  | jobj (fields : List (String × JVal))
  | jother

/-- A loosely-typed mapping section. -/
abbrev JObj := List (String × JVal)

/-- Python `dict.get(key)` (`None` when absent). -/
def jget (o : JObj) (k : String) : Option JVal :=
  match o with
  | [] => none
  | (k2, v) :: t => if k2 = k then some v else jget t k

/-- Model of `config.Config`: the schema-checked but not yet semantically
validated configuration. -/
structure Config where
  timestamp : TimestampConfig
  scope : ScopeConfig
  calendar : Option JObj
  work_patterns : Option JObj
  randomness : Option JObj

/-- Model of `validation.ValidationError`: a dotted field path plus message. -/
structure ValidationError where
  path : String
  message : String
deriving DecidableEq, Repr

/-- Model of `validation._is_int`: an integer that is not a boolean (`JVal.jint`
already excludes booleans); `None` is not an integer. -/
def is_int (v : Option JVal) : Bool :=
  match v with
  | some (.jint _) => true
  | _ => false

/-- Model of `validation._require_int`. -/
def require_int (o : JObj) (k : String) (path : String) : Except ValidationError ℤ :=
  match jget o k with
  | some (.jint n) => .ok n
  | _ => .error ⟨path, "value must be an integer"⟩

/-- Gregorian leap-year rule (as implemented by Python's `datetime.date`). -/
def isLeap (y : ℕ) : Bool :=
  y % 4 = 0 && (y % 100 ≠ 0 || y % 400 = 0)

/-- Days in a month of the proleptic Gregorian calendar. -/
def daysInMonth (y m : ℕ) : ℕ :=
  if m = 2 then (if isLeap y then 29 else 28)
  else if m = 4 ∨ m = 6 ∨ m = 9 ∨ m = 11 then 30
  else 31

/-- Civil date to days since 1970-01-01 (standard days-from-civil
conversion), the day-number representation `datetime.date` stands for. -/
def epochDay (y m d : ℕ) : ℤ :=
  let yy : ℤ := if m ≤ 2 then (y : ℤ) - 1 else (y : ℤ)
  let era : ℤ := yy / 400
  let yoe : ℤ := yy - era * 400
  let mp : ℤ := ((m : ℤ) + 9) % 12
  let doy : ℤ := (153 * mp + 2) / 5 + (d : ℤ) - 1
  let doe : ℤ := yoe * 365 + yoe / 4 - yoe / 100 + doy
  era * 146097 + doe - 719468

/-- Model of `validation._parse_date`: `datetime.strptime(value, "%Y-%m-%d").date()`,
i.e. three dash-separated numeric fields forming a real calendar date in
the year range Python's `datetime` supports. -/
def parse_date (path : String) (value : String) : Except ValidationError ℤ :=
  match value.splitOn "-" with
  | [ys, ms, ds] =>
    match ys.toNat?, ms.toNat?, ds.toNat? with
    | some y, some m, some d =>
      if 1 ≤ y ∧ y ≤ 9999 ∧ 1 ≤ m ∧ m ≤ 12 ∧ 1 ≤ d ∧ d ≤ daysInMonth y m then
        .ok (epochDay y m d)
      else .error ⟨path, "invalid date: " ++ value⟩
    | _, _, _ => .error ⟨path, "invalid date: " ++ value⟩
  | _ => .error ⟨path, "invalid date: " ++ value⟩

/-- Model of `validation._parse_time`: `HH:MM` with hour 0–23 and minute 0–59. -/
def parse_time (path : String) (value : String) : Except ValidationError HM :=
  match value.splitOn ":" with
  | [hs, ms] =>
    match hs.toInt?, ms.toInt? with
    | some h, some m =>
      if ¬(0 ≤ h ∧ h ≤ 23) then .error ⟨path, "hour out of range: " ++ toString h⟩
      else if ¬(0 ≤ m ∧ m ≤ 59) then .error ⟨path, "minute out of range: " ++ toString m⟩
      else .ok ⟨h.toNat, m.toNat⟩
    | _, _ => .error ⟨path, "invalid time: " ++ value⟩
  | _ => .error ⟨path, "time must use HH:MM format"⟩

/-- Model of `validation._resolve_timezone`.  The literal zero-offset names resolve
without a timezone database; any other name consults the system's IANA
database, modelled by the ambient predicate `tzdb`. -/
def resolve_timezone (tzdb : String → Bool) (path name : String) :
    Except ValidationError Tz :=
  if name.toUpper = "UTC" ∨ name.toUpper = "Z" ∨ name.toUpper = "ETC/UTC" then
    .ok Tz.utc
  else if tzdb name then .ok (Tz.zone name)
  else
    .error ⟨path, "invalid timezone: " ++ name ++ ". install tzdata or set timezone to UTC"⟩

/-- Model of `validation.validate_calendar`. -/
def validate_calendar (tzdb : String → Bool) (calendar : JObj) :
    Except ValidationError ParsedCalendar :=
  match jget calendar "start", jget calendar "end" with
  | some (.jstr start_raw), some (.jstr end_raw) =>
    match parse_date "calendar.start" start_raw with
    | .error e => .error e
    | .ok start =>
      match parse_date "calendar.end" end_raw with
      | .error e => .error e
      | .ok stop =>
        if stop < start then .error ⟨"calendar", "start must be on or before end"⟩
        else
          match jget calendar "timezone" with
          | none =>
            match resolve_timezone tzdb "calendar.timezone" "UTC" with
            | .error e => .error e
            | .ok tz => .ok ⟨start, stop, "UTC", tz⟩
          | some (.jstr tz_raw) =>
            let tz_name := tz_raw.trim
            if tz_name = "" then
              .error ⟨"calendar.timezone", "timezone must not be empty"⟩
            else
              match resolve_timezone tzdb "calendar.timezone" tz_name with
              | .error e => .error e
              | .ok tz => .ok ⟨start, stop, tz_name, tz⟩
          | some _ => .error ⟨"calendar.timezone", "timezone must be a string"⟩
  | some (.jstr _), _ => .error ⟨"calendar.end", "end must be a string"⟩
  | _, _ => .error ⟨"calendar.start", "start must be a string"⟩

/-- Model of `validation._validate_work_block`. -/
def validate_work_block (path : String) (block : JObj) :
    Except ValidationError ParsedWorkBlock :=
  match jget block "enabled" with
  | some (.jbool enabled) =>
    if enabled = false then
      match jget block "hours" with
      | some _ => .error ⟨path ++ ".hours", "hours must be omitted when enabled is false"⟩
      | none => .ok ⟨false, none⟩
    else
      match jget block "hours" with
      | some (.jobj hs) =>
        match jget hs "start", jget hs "end" with
        | some (.jstr start_raw), some (.jstr end_raw) =>
          match parse_time (path ++ ".hours.start") start_raw with
          | .error e => .error e
          | .ok start_t =>
            match parse_time (path ++ ".hours.end") end_raw with
            | .error e => .error e
            | .ok end_t =>
              if end_t.toMin ≤ start_t.toMin then
                .error ⟨path ++ ".hours.end", "end must be after hours.start"⟩
              else .ok ⟨true, some ⟨start_t, end_t⟩⟩
        | some (.jstr _), _ => .error ⟨path ++ ".hours.end", "end must be a string"⟩
        | _, _ => .error ⟨path ++ ".hours.start", "start must be a string"⟩
      | _ => .error ⟨path ++ ".hours", "hours must be an object when enabled is true"⟩
  | _ => .error ⟨path ++ ".enabled", "enabled must be a boolean"⟩

/-- Model of `validation.validate_work_patterns`. -/
def validate_work_patterns (work_patterns : JObj) :
    Except ValidationError ParsedWorkPatterns :=
  match jget work_patterns "weekdays", jget work_patterns "saturday",
      jget work_patterns "sunday" with
  | some (.jobj w), some (.jobj sa), some (.jobj su) =>
    match validate_work_block "work_patterns.weekdays" w with
    | .error e => .error e
    | .ok weekdays =>
      match validate_work_block "work_patterns.saturday" sa with
      | .error e => .error e
      | .ok saturday =>
        match validate_work_block "work_patterns.sunday" su with
        | .error e => .error e
        | .ok sunday =>
          if ¬(weekdays.enabled = true ∨ saturday.enabled = true ∨
              sunday.enabled = true) then
            .error ⟨"work_patterns", "enable at least one of weekdays, saturday, or sunday"⟩
          else .ok ⟨weekdays, saturday, sunday⟩
  | some (.jobj _), some (.jobj _), _ =>
    .error ⟨"work_patterns.sunday", "sunday must be an object"⟩
  | some (.jobj _), _, _ =>
    .error ⟨"work_patterns.saturday", "saturday must be an object"⟩
  | _, _, _ => .error ⟨"work_patterns.weekdays", "weekdays must be an object"⟩

/-- Model of `validation.validate_randomness`. -/
def validate_randomness (randomness : JObj) : Except ValidationError ParsedRandomness :=
  let seed_step : Except ValidationError (Option ℤ) :=
    match jget randomness "seed" with
    | none => .ok none
    | some (.jint n) => .ok (some n)
    | some _ => .error ⟨"randomness.seed", "seed must be an integer or null"⟩
  match seed_step with
  | .error e => .error e
  | .ok seed =>
    match jget randomness "gap_minutes" with
    | some (.jobj gap_raw) =>
      match jget randomness "seconds" with
      | some (.jobj sec_raw) =>
        match require_int gap_raw "min" "randomness.gap_minutes.min" with
        | .error e => .error e
        | .ok gap_min =>
          match require_int gap_raw "max" "randomness.gap_minutes.max" with
          | .error e => .error e
          | .ok gap_max =>
            if gap_min < 0 ∨ gap_max < 0 then
              .error ⟨"randomness.gap_minutes", "min and max must be non negative"⟩
            else if gap_max < gap_min then
              .error ⟨"randomness.gap_minutes", "min must be less than or equal to max"⟩
            else
              match require_int sec_raw "min" "randomness.seconds.min" with
              | .error e => .error e
              | .ok sec_min =>
                match require_int sec_raw "max" "randomness.seconds.max" with
                | .error e => .error e
                | .ok sec_max =>
                  if ¬(0 ≤ sec_min ∧ sec_min ≤ 59) then
                    .error ⟨"randomness.seconds.min", "min must be between 0 and 59"⟩
                  else if ¬(0 ≤ sec_max ∧ sec_max ≤ 59) then
                    .error ⟨"randomness.seconds.max", "max must be between 0 and 59"⟩
                  else if sec_max < sec_min then
                    .error ⟨"randomness.seconds", "min must be less than or equal to max"⟩
                  else .ok ⟨seed, gap_min, gap_max, sec_min, sec_max⟩
      | _ => .error ⟨"randomness.seconds", "seconds must be an object"⟩
    | _ => .error ⟨"randomness.gap_minutes", "gap_minutes must be an object"⟩

/-- Model of `validation._forbid_synthetic_sections`. -/
def forbid_synthetic_sections (cfg : Config) (mode : String) :
    Except ValidationError Unit :=
  match cfg.calendar with
  | some _ => .error ⟨"calendar", "calendar is not allowed in " ++ mode ++ " mode"⟩
  | none =>
    match cfg.work_patterns with
    | some _ => .error ⟨"work_patterns", "work_patterns is not allowed in " ++ mode ++ " mode"⟩
    | none =>
      match cfg.randomness with
      | some _ => .error ⟨"randomness", "randomness is not allowed in " ++ mode ++ " mode"⟩
      | none => .ok ()

/-- Model of `validation.validate_config`. -/
def validate_config (tzdb : String → Bool) (cfg : Config) :
    Except ValidationError ValidatedConfig :=
  if cfg.timestamp.mode = "author" ∨ cfg.timestamp.mode = "commit" then
    match forbid_synthetic_sections cfg cfg.timestamp.mode with
    | .error e => .error e
    | .ok _ => .ok ⟨cfg.timestamp, cfg.scope, none, none, none⟩
  else if cfg.timestamp.mode ≠ "synthetic" then
    .error ⟨"timestamp.mode", "unsupported mode: " ++ cfg.timestamp.mode⟩
  else
    match cfg.calendar with
    | none => .error ⟨"calendar", "missing calendar for synthetic mode"⟩
    | some cal =>
      match cfg.work_patterns with
      | none => .error ⟨"work_patterns", "missing work_patterns for synthetic mode"⟩
      | some wp =>
        match cfg.randomness with
        | none => .error ⟨"randomness", "missing randomness for synthetic mode"⟩
        | some rd =>
          match validate_calendar tzdb cal with
          | .error e => .error e
          | .ok parsed_calendar =>
            match validate_work_patterns wp with
            | .error e => .error e
            | .ok parsed_work =>
              match validate_randomness rd with
              | .error e => .error e
              | .ok parsed_rand =>
                .ok ⟨cfg.timestamp, cfg.scope, some parsed_calendar,
                  some parsed_work, some parsed_rand⟩

/-! ### Concrete sample inputs used by the witnesses -/

/-- A fixed ambient entropy stream. -/
def entropy0 : ℕ → ℕ := fun _ => 0

/-- A second, different entropy stream. -/
def entropy1 : ℕ → ℕ := fun n => n

/-- A third, different entropy stream. -/
def entropy2 : ℕ → ℕ := fun n => n + 1

def cA : Commit := ⟨"aaa111", 1704000000, 1704000600, 0⟩

def cB : Commit := ⟨"bbb222", 1704003600, 1704004200, 1⟩

def cC : Commit := ⟨"ccc333", 1704007200, 1704007800, 2⟩

def commits3 : List Commit := [cA, cB, cC]

/-- Weekdays 09:00–17:00, weekend disabled. -/
def work0S : ParsedWorkPatterns :=
  ⟨⟨true, some ⟨⟨9, 0⟩, ⟨17, 0⟩⟩⟩, ⟨false, none⟩, ⟨false, none⟩⟩

/-- Calendar 2024-01-01 (a Monday, epoch day 19723) through 2024-01-05. -/
def cal0S : ParsedCalendar := ⟨19723, 19727, "UTC", Tz.utc⟩

def rnd0S : ParsedRandomness := ⟨some 42, 25, 90, 5, 55⟩

/-- A validated synthetic configuration. -/
def cfgS : ValidatedConfig :=
  ⟨⟨"synthetic"⟩, ⟨1⟩, some cal0S, some work0S, some rnd0S⟩

/-- Saturday-only work pattern. -/
def work0E : ParsedWorkPatterns :=
  ⟨⟨false, none⟩, ⟨true, some ⟨⟨9, 0⟩, ⟨17, 0⟩⟩⟩, ⟨false, none⟩⟩

/-- A single-day calendar covering only Monday 2024-01-01. -/
def cal0E : ParsedCalendar := ⟨19723, 19723, "UTC", Tz.utc⟩

/-- A validated synthetic configuration whose calendar window contains no
enabled date: only Saturday is enabled but the window holds one Monday. -/
def cfg0 : ValidatedConfig :=
  ⟨⟨"synthetic"⟩, ⟨1⟩, some cal0E, some work0E, some rnd0S⟩

def cfgA : ValidatedConfig := ⟨⟨"author"⟩, ⟨1⟩, none, none, none⟩

def cfgC : ValidatedConfig := ⟨⟨"commit"⟩, ⟨1⟩, none, none, none⟩

/-- A synthetic-mode config with all synthetic sections absent (as the
engine may defensively receive). -/
def cfgE : ValidatedConfig := ⟨⟨"synthetic"⟩, ⟨1⟩, none, none, none⟩

/-- An empty timezone database: only the literal zero-offset names resolve. -/
def tzdb0 : String → Bool := fun _ => false

/-- Raw config: author mode carrying a (forbidden) calendar section. -/
def rawA : Config := ⟨⟨"author"⟩, ⟨1⟩, some [], none, none⟩

/-- Raw config: synthetic mode with the calendar section missing. -/
def rawS : Config := ⟨⟨"synthetic"⟩, ⟨1⟩, none, none, none⟩

/-- Raw config: a well-formed author-mode policy. -/
def rawOkA : Config := ⟨⟨"author"⟩, ⟨1⟩, none, none, none⟩

/-- The validated form of `rawOkA`. -/
def vOkA : ValidatedConfig := ⟨⟨"author"⟩, ⟨1⟩, none, none, none⟩

/-! ### Helper lemmas: the random draws stay in range -/

theorem randint_bounds (r : RngState) {lo hi : ℤ} (h : lo ≤ hi) :
    lo ≤ (randint r lo hi).1 ∧ (randint r lo hi).1 ≤ hi := by
  have h1 : 0 ≤ (r.stream r.idx : ℤ) % (hi - lo + 1) :=
    Int.emod_nonneg _ (by omega)
  have h2 : (r.stream r.idx : ℤ) % (hi - lo + 1) < hi - lo + 1 :=
    Int.emod_lt_of_pos _ (by omega)
  unfold randint
  dsimp only
  omega

theorem pick_time_in_window_spec (r : RngState) (hstart hstop : HM)
    (sec_min sec_max : ℤ)
    (hse : hstart.toMin ≤ hstop.toMin)
    (hsec : 0 ≤ sec_min ∧ sec_min ≤ sec_max ∧ sec_max ≤ 59) :
    ∃ t r2, pick_time_in_window r hstart hstop sec_min sec_max = .ok (t, r2) ∧
      (hstart.hour : ℤ) * 3600 + (hstart.minute : ℤ) * 60 ≤ t ∧
      t ≤ (hstop.hour : ℤ) * 3600 + (hstop.minute : ℤ) * 60 + 59 := by
  have hse2 : (hstart.hour : ℤ) * 3600 + (hstart.minute : ℤ) * 60 ≤
      (hstop.hour : ℤ) * 3600 + (hstop.minute : ℤ) * 60 + 59 := by
    have := hse
    unfold HM.toMin at this
    omega
  have hcb := randint_bounds r hse2
  obtain ⟨c, r1, hcdef⟩ : ∃ c r1, randint r
      ((hstart.hour : ℤ) * 3600 + (hstart.minute : ℤ) * 60)
      ((hstop.hour : ℤ) * 3600 + (hstop.minute : ℤ) * 60 + 59) = (c, r1) := ⟨_, _, rfl⟩
  rw [hcdef] at hcb
  dsimp only at hcb
  have hsb := randint_bounds r1 (show sec_min ≤ sec_max by omega)
  obtain ⟨s2, r2, hsdef⟩ : ∃ s2 r2, randint r1 sec_min sec_max = (s2, r2) := ⟨_, _, rfl⟩
  rw [hsdef] at hsb
  dsimp only at hsb
  unfold pick_time_in_window
  rw [if_neg (by omega)]
  dsimp only
  rw [hcdef]
  dsimp only
  rw [hsdef]
  dsimp only
  have hmin : min (c - c % 60) ((hstop.hour : ℤ) * 3600 + (hstop.minute : ℤ) * 60 + 59)
      = c - c % 60 := min_eq_left (by omega)
  have hmax : max ((hstart.hour : ℤ) * 3600 + (hstart.minute : ℤ) * 60) (c - c % 60)
      = c - c % 60 := max_eq_right (by omega)
  rw [hmin, hmax]
  refine ⟨_, _, rfl, ?_, ?_⟩ <;> omega

theorem work_block_for_day_valid {work : ParsedWorkPatterns} (hw : work.Valid)
    (day : ℤ) : (work_block_for_day day work).Valid := by
  unfold work_block_for_day
  split_ifs
  · exact hw.1
  · exact hw.2.1
  · exact hw.2.2

theorem random_datetime_for_day_spec {day : ℤ} {work : ParsedWorkPatterns}
    {r : RngState} {sec_min sec_max : ℤ} {t : ℤ} {r2 : RngState}
    {hrs : ParsedWorkHours}
    (hh : (work_block_for_day day work).hours = some hrs)
    (hv : hrs.Valid)
    (hsec : 0 ≤ sec_min ∧ sec_min ≤ sec_max ∧ sec_max ≤ 59)
    (hok : random_datetime_for_day day work r sec_min sec_max = .ok (t, r2)) :
    combineDT day (window_start_sec hrs) ≤ t ∧
    t ≤ combineDT day (window_end_sec hrs) ∧ dtDay t = day ∧ InWindow work t := by
  rcases hb : (work_block_for_day day work).enabled with _ | _ <;>
    unfold random_datetime_for_day at hok <;> rw [hb, hh] at hok <;>
    dsimp only at hok
  · exact absurd hok (by simp)
  obtain ⟨t0, r0, hpt, hlo, hhi⟩ :=
    pick_time_in_window_spec r hrs.start hrs.stop sec_min sec_max
      (le_of_lt hv.2.2) hsec
  rw [hpt] at hok
  dsimp only at hok
  simp only [Except.ok.injEq, Prod.mk.injEq] at hok
  obtain ⟨ht, hr⟩ := hok
  subst ht
  have hhour : hrs.stop.hour ≤ 23 := hv.2.1.1
  have hminute : hrs.stop.minute ≤ 59 := hv.2.1.2
  have h0 : (0:ℤ) ≤ t0 := by omega
  have h86400 : t0 < 86400 := by
    have hh23 : ((hrs.stop.hour : ℤ)) ≤ 23 := by exact_mod_cast hhour
    have hm59 : ((hrs.stop.minute : ℤ)) ≤ 59 := by exact_mod_cast hminute
    omega
  have hday : dtDay (combineDT day t0) = day := by
    unfold dtDay combineDT
    omega
  have hsec0 : secOfDay (combineDT day t0) = t0 := by
    unfold secOfDay combineDT
    omega
  refine ⟨?_, ?_, hday, ?_⟩
  · unfold combineDT window_start_sec
    omega
  · unfold combineDT window_end_sec
    omega
  · refine ⟨by rw [hday]; exact hb, hrs, by rw [hday]; exact hh, ?_, ?_⟩
    · rw [hsec0]
      unfold window_start_sec
      omega
    · rw [hsec0]
      unfold window_end_sec
      omega

/-! ### The day-advancing loop never moves backwards and lands in a window -/

theorem next_valid_go_spec {stop : ℤ} {work : ParsedWorkPatterns}
    {sec_min sec_max : ℤ}
    (hw : work.Valid) (hsec : 0 ≤ sec_min ∧ sec_min ≤ sec_max ∧ sec_max ≤ 59) :
    ∀ fuel (day candidate : ℤ) (r : RngState) (t : ℤ) (r2 : RngState),
      dtDay candidate = day →
      next_valid_go stop work sec_min sec_max fuel day candidate r = .ok (t, r2) →
      candidate ≤ t ∧ InWindow work t := by
  intro fuel
  induction fuel with
  | zero =>
    intro day candidate r t r2 _ hok
    exact absurd hok (by simp [next_valid_go])
  | succ n ih =>
    intro day candidate r t r2 hday hok
    simp only [next_valid_go] at hok
    by_cases hstop : stop < day
    · rw [if_pos hstop] at hok
      exact absurd hok (by simp)
    rw [if_neg hstop] at hok
    have hcand_next : candidate ≤ midnight (day + 1) := by
      unfold dtDay at hday
      unfold midnight
      omega
    have hnext_day : dtDay (midnight (day + 1)) = day + 1 := by
      unfold dtDay midnight
      omega
    rcases hb : (work_block_for_day day work).enabled with _ | _ <;>
      rcases hh : (work_block_for_day day work).hours with _ | hrs <;>
      rw [hb, hh] at hok <;> dsimp only at hok
    · obtain ⟨h1, h2⟩ := ih (day + 1) (midnight (day + 1)) r t r2 hnext_day hok
      exact ⟨le_trans hcand_next h1, h2⟩
    · obtain ⟨h1, h2⟩ := ih (day + 1) (midnight (day + 1)) r t r2 hnext_day hok
      exact ⟨le_trans hcand_next h1, h2⟩
    · obtain ⟨h1, h2⟩ := ih (day + 1) (midnight (day + 1)) r t r2 hnext_day hok
      exact ⟨le_trans hcand_next h1, h2⟩
    · -- enabled day with hours: the window logic
      have hbv := work_block_for_day_valid hw day
      have hv : hrs.Valid := by
        unfold ParsedWorkBlock.Valid at hbv
        rw [hh] at hbv
        exact hbv.2
      by_cases h1 : candidate < (window_bounds day hrs).1
      · rw [if_pos h1] at hok
        obtain ⟨hlo, hhi, hdayt, hwin⟩ := random_datetime_for_day_spec hh hv hsec hok
        refine ⟨?_, hwin⟩
        have : (window_bounds day hrs).1 = combineDT day (window_start_sec hrs) := rfl
        omega
      · rw [if_neg h1] at hok
        by_cases h2 : candidate ≤ (window_bounds day hrs).2
        · rw [if_pos h2] at hok
          simp only [Except.ok.injEq, Prod.mk.injEq] at hok
          obtain ⟨ht, hr⟩ := hok
          subst ht
          refine ⟨le_refl _, ?_, hrs, ?_, ?_, ?_⟩
          · rw [hday]
            exact hb
          · rw [hday]
            exact hh
          · have hwb1 : (window_bounds day hrs).1 = day * 86400 + window_start_sec hrs := rfl
            unfold dtDay at hday
            unfold secOfDay
            omega
          · have hwb2 : (window_bounds day hrs).2 = day * 86400 + window_end_sec hrs := rfl
            unfold dtDay at hday
            unfold secOfDay
            omega
        · rw [if_neg h2] at hok
          obtain ⟨hg1, hg2⟩ := ih (day + 1) (midnight (day + 1)) r t r2 hnext_day hok
          exact ⟨le_trans hcand_next hg1, hg2⟩

theorem next_valid_datetime_spec {candidate stop : ℤ} {work : ParsedWorkPatterns}
    {r : RngState} {sec_min sec_max : ℤ} {t : ℤ} {r2 : RngState}
    (hw : work.Valid) (hsec : 0 ≤ sec_min ∧ sec_min ≤ sec_max ∧ sec_max ≤ 59)
    (hok : next_valid_datetime candidate stop work r sec_min sec_max = .ok (t, r2)) :
    candidate ≤ t ∧ InWindow work t :=
  next_valid_go_spec hw hsec _ (dtDay candidate) candidate r t r2 rfl hok

/-! ### The first-enabled-day scan -/

theorem next_enabled_day_go_spec {stop : ℤ} {work : ParsedWorkPatterns} :
    ∀ fuel (day d : ℤ),
      next_enabled_day_go stop work fuel day = .ok d →
      (work_block_for_day d work).enabled = true := by
  intro fuel
  induction fuel with
  | zero =>
    intro day d hok
    exact absurd hok (by simp [next_enabled_day_go])
  | succ n ih =>
    intro day d hok
    simp only [next_enabled_day_go] at hok
    by_cases hstop : stop < day
    · rw [if_pos hstop] at hok
      exact absurd hok (by simp)
    rw [if_neg hstop] at hok
    rcases hb : (work_block_for_day day work).enabled with _ | _ <;> rw [hb] at hok
    · rw [if_neg (by simp)] at hok
      exact ih (day + 1) d hok
    · rw [if_pos rfl] at hok
      obtain rfl := Except.ok.inj hok
      exact hb

theorem next_enabled_day_go_exhaust {stop d0 : ℤ} {work : ParsedWorkPatterns}
    (hall : ∀ d, d0 ≤ d → d ≤ stop → (work_block_for_day d work).enabled = false) :
    ∀ fuel (day : ℤ), d0 ≤ day →
      next_enabled_day_go stop work fuel day =
        .error "Synthetic calendar window exhausted" := by
  intro fuel
  induction fuel with
  | zero =>
    intro day _
    simp [next_enabled_day_go]
  | succ n ih =>
    intro day hd0
    simp only [next_enabled_day_go]
    by_cases hstop : stop < day
    · rw [if_pos hstop]
    · rw [if_neg hstop, hall day hd0 (by omega)]
      rw [if_neg (by simp)]
      exact ih (day + 1) (by omega)

/-! ### The synthetic main loop: chained, windowed timestamps -/

theorem random_gap_nonneg (r : RngState) {gap_min gap_max sec_min sec_max : ℤ}
    (hg : 0 ≤ gap_min ∧ gap_min ≤ gap_max)
    (hsec : 0 ≤ sec_min ∧ sec_min ≤ sec_max) :
    0 ≤ (random_gap r gap_min gap_max sec_min sec_max).1 := by
  unfold random_gap
  dsimp only
  have h1 := randint_bounds r hg.2
  have h2 := randint_bounds (randint r gap_min gap_max).2 hsec.2
  omega

theorem synthetic_go_spec {stop : ℤ} {work : ParsedWorkPatterns}
    {gap_min gap_max sec_min sec_max : ℤ}
    (hw : work.Valid) (hg : 0 ≤ gap_min ∧ gap_min ≤ gap_max)
    (hsec : 0 ≤ sec_min ∧ sec_min ≤ sec_max ∧ sec_max ≤ 59) :
    ∀ (cs : List Commit) (current : ℤ) (r : RngState)
      (acc l : List (String × ℤ)),
      List.Chain' (· ≤ ·) (acc.map Prod.snd) →
      (∀ v ∈ (acc.map Prod.snd).getLast?, v ≤ current) →
      (∀ p ∈ acc, InWindow work p.2) →
      synthetic_go stop work gap_min gap_max sec_min sec_max cs current r acc =
        .ok l →
      List.Chain' (· ≤ ·) (l.map Prod.snd) ∧ ∀ p ∈ l, InWindow work p.2 := by
  intro cs
  induction cs with
  | nil =>
    intro current r acc l hchain _ hwin hok
    simp only [synthetic_go, Except.ok.injEq] at hok
    subst hok
    exact ⟨hchain, hwin⟩
  | cons c cs ih =>
    intro current r acc l hchain hlast hwin hok
    simp only [synthetic_go] at hok
    rcases hnv : next_valid_datetime
        (current + (random_gap r gap_min gap_max sec_min sec_max).1) stop work
        (random_gap r gap_min gap_max sec_min sec_max).2 sec_min sec_max with e | p
    · rw [hnv] at hok
      exact absurd hok (by simp)
    · obtain ⟨cur2, r2⟩ := p
      rw [hnv] at hok
      dsimp only at hok
      have hgap := random_gap_nonneg r hg ⟨hsec.1, hsec.2.1⟩
      obtain ⟨hmono, hwin2⟩ := next_valid_datetime_spec hw hsec hnv
      have hcur : current ≤ cur2 := by omega
      refine ih cur2 r2 (acc ++ [(c.hash, cur2)]) l ?_ ?_ ?_ hok
      · rw [List.map_append]
        apply List.Chain'.append hchain (List.chain'_singleton _)
        intro x hx y hy
        simp only [List.map_cons, List.map_nil, List.head?_cons, Option.mem_def,
          Option.some.injEq] at hy
        subst hy
        exact le_trans (hlast x hx) hcur
      · intro v hv
        have hlastc : ((acc ++ [(c.hash, cur2)]).map Prod.snd).getLast? = some cur2 := by
          simp
        rw [hlastc] at hv
        simp only [Option.mem_def, Option.some.injEq] at hv
        subst hv
        exact le_refl _
      · intro p hp
        rcases List.mem_append.mp hp with hp | hp
        · exact hwin p hp
        · simp only [List.mem_singleton] at hp
          subst hp
          exact hwin2

theorem synthetic_mode_spec {entropy : ℕ → ℕ} {commits : List Commit}
    {config : ValidatedConfig} {cal : ParsedCalendar} {work : ParsedWorkPatterns}
    {rnd : ParsedRandomness} {l : List (String × ℤ)}
    (hcal : config.calendar = some cal) (hwp : config.work_patterns = some work)
    (hrd : config.randomness = some rnd)
    (hw : work.Valid) (hr : rnd.Valid)
    (hok : synthetic_mode entropy commits config = .ok l) :
    List.Chain' (· ≤ ·) (l.map Prod.snd) ∧ ∀ p ∈ l, InWindow work p.2 := by
  cases commits with
  | nil =>
    simp only [synthetic_mode, Except.ok.injEq] at hok
    subst hok
    exact ⟨List.chain'_nil, by simp⟩
  | cons c0 rest =>
    unfold synthetic_mode at hok
    rw [hcal, hwp, hrd] at hok
    dsimp only at hok
    rcases hne : next_enabled_day cal.start cal.stop work with e | day0 <;>
      rw [hne] at hok <;> dsimp only at hok
    · exact absurd hok (by simp)
    rcases hrdt : random_datetime_for_day day0 work ⟨mkStream rnd.seed entropy, 0⟩
        rnd.seconds_min rnd.seconds_max with e | p <;> rw [hrdt] at hok <;>
      dsimp only at hok
    · exact absurd hok (by simp)
    obtain ⟨current, r1⟩ := p
    have hen : (work_block_for_day day0 work).enabled = true := by
      unfold next_enabled_day at hne
      exact next_enabled_day_go_spec _ _ _ hne
    have hblock := work_block_for_day_valid hw day0
    unfold ParsedWorkBlock.Valid at hblock
    rcases hh : (work_block_for_day day0 work).hours with _ | hrs <;>
      rw [hh] at hblock <;> dsimp only at hblock
    · rw [hen] at hblock
      exact absurd hblock (by simp)
    have hsec : 0 ≤ rnd.seconds_min ∧ rnd.seconds_min ≤ rnd.seconds_max ∧
        rnd.seconds_max ≤ 59 := ⟨hr.2.2.1, hr.2.2.2.1, hr.2.2.2.2⟩
    obtain ⟨_, _, _, hwincur⟩ := random_datetime_for_day_spec hh hblock.2 hsec hrdt
    refine synthetic_go_spec hw ⟨hr.1, hr.2.1⟩ hsec rest current r1
      [(c0.hash, current)] l ?_ ?_ ?_ hok
    · exact List.chain'_singleton _
    · intro v hv
      simp only [List.map_cons, List.map_nil, List.getLast?_singleton,
        Option.mem_def, Option.some.injEq] at hv
      subst hv
      exact le_refl _
    · intro p hp
      simp only [List.mem_singleton] at hp
      subst hp
      exact hwincur

/-! ### Lookup facts for the result dictionary -/

theorem dget_not_mem {l : List (String × ℤ)} {k : String}
    (h : k ∉ l.map Prod.fst) : dget l k = none := by
  induction l with
  | nil => rfl
  | cons p t ih =>
    obtain ⟨k2, v⟩ := p
    simp only [List.map_cons, List.mem_cons] at h
    push_neg at h
    unfold dget
    rw [ih h.2]
    exact if_neg fun hk => h.1 hk.symm

theorem dget_map_self (f : Commit → ℤ) :
    ∀ (commits : List Commit), (commits.map Commit.hash).Nodup →
      ∀ c ∈ commits, dget (commits.map fun x => (x.hash, f x)) c.hash = some (f c) := by
  intro commits
  induction commits with
  | nil =>
    intro _ c hc
    cases hc
  | cons a t ih =>
    intro hnd c hc
    rw [List.map_cons] at hnd
    have hnd2 := List.nodup_cons.mp hnd
    simp only [List.map_cons]
    rcases List.mem_cons.mp hc with rfl | hct
    · have hnm : c.hash ∉ (t.map fun x => (x.hash, f x)).map Prod.fst := by
        intro hmem
        rw [List.map_map] at hmem
        obtain ⟨x, hx, hxe⟩ := List.mem_map.mp hmem
        exact hnd2.1 (List.mem_map.mpr ⟨x, hx, hxe⟩)
      unfold dget
      rw [dget_not_mem hnm]
      exact if_pos rfl
    · unfold dget
      rw [ih hnd2.2 c hct]

/-! ### Claim theorems -/

/-- C1: `apply_scope` is total on fractions in [-1, 1] and yields a
value-preserving partition: for positive fractions the selection is the
oldest-first prefix and `selected ++ untouched` rebuilds the input; for
negative fractions the selection is the newest-last suffix and
`untouched ++ selected` rebuilds the input; a zero fraction or an empty
input selects nothing and leaves the input untouched. -/
theorem scope_partition (commits : List Commit) (fraction : ℚ)
    (h1 : -1 ≤ fraction) (h2 : fraction ≤ 1) :
    ∃ sel unt, apply_scope commits fraction = .ok (sel, unt) ∧
      (0 < fraction → sel ++ unt = commits ∧
        sel = commits.take (⌊|fraction| * (commits.length : ℚ)⌋).toNat) ∧
      (fraction < 0 → unt ++ sel = commits ∧
        sel = commits.drop (commits.length - (⌊|fraction| * (commits.length : ℚ)⌋).toNat)) ∧
      ((fraction = 0 ∨ commits = []) → sel = [] ∧ unt = commits) := by
  unfold apply_scope
  rw [if_neg (not_not_intro ⟨h1, h2⟩)]
  by_cases hz : commits.length = 0 ∨ fraction = 0
  · rw [if_pos hz]
    have hzcases : commits = [] ∨ fraction = 0 := by
      rcases hz with hz | hz
      · exact Or.inl (List.length_eq_zero.mp hz)
      · exact Or.inr hz
    refine ⟨[], commits, rfl, ?_, ?_, fun _ => ⟨rfl, rfl⟩⟩
    · intro hpos
      rcases hzcases with rfl | hz0
      · exact ⟨rfl, by simp⟩
      · exact absurd hz0 (by intro h; rw [h] at hpos; exact lt_irrefl 0 hpos)
    · intro hneg
      rcases hzcases with rfl | hz0
      · exact ⟨by simp, by simp⟩
      · exact absurd hz0 (by intro h; rw [h] at hneg; exact lt_irrefl 0 hneg)
  · rw [if_neg hz]
    push_neg at hz
    by_cases hk : (⌊|fraction| * (commits.length : ℚ)⌋).toNat = 0
    · rw [if_pos hk]
      refine ⟨[], commits, rfl, ?_, ?_, ?_⟩
      · intro _
        exact ⟨rfl, by rw [hk]; simp⟩
      · intro _
        exact ⟨by simp, by rw [hk]; simp⟩
      · intro h0
        rcases h0 with h0 | h0
        · exact absurd h0 hz.2
        · exact absurd (congrArg List.length h0) (by simpa using hz.1)
    · rw [if_neg hk]
      by_cases hpos : 0 < fraction
      · rw [if_pos hpos]
        refine ⟨_, _, rfl, ?_, ?_, ?_⟩
        · intro _
          exact ⟨List.take_append_drop _ _, rfl⟩
        · intro hneg
          exact absurd hpos (not_lt_of_lt hneg)
        · intro h0
          rcases h0 with h0 | h0
          · exact absurd h0 hz.2
          · exact absurd (congrArg List.length h0) (by simpa using hz.1)
      · rw [if_neg hpos]
        refine ⟨_, _, rfl, ?_, ?_, ?_⟩
        · intro hp
          exact absurd hp hpos
        · intro _
          exact ⟨List.take_append_drop _ _, rfl⟩
        · intro h0
          rcases h0 with h0 | h0
          · exact absurd h0 hz.2
          · exact absurd (congrArg List.length h0) (by simpa using hz.1)

/-- C2: the number of selected commits is exactly
`floor(|fraction| * N)` for every fraction in [-1, 1] and every commit
count `N` (the fraction is embedded as an exact rational). -/
theorem scope_selected_length (commits : List Commit) (fraction : ℚ)
    (h1 : -1 ≤ fraction) (h2 : fraction ≤ 1) :
    ∃ sel unt, apply_scope commits fraction = .ok (sel, unt) ∧
      (sel.length : ℤ) = ⌊|fraction| * (commits.length : ℚ)⌋ := by
  have habs : |fraction| ≤ 1 := abs_le.mpr ⟨h1, h2⟩
  have hfl0 : 0 ≤ ⌊|fraction| * (commits.length : ℚ)⌋ :=
    Int.floor_nonneg.mpr (mul_nonneg (abs_nonneg _) (by positivity))
  have hflN : ⌊|fraction| * (commits.length : ℚ)⌋ ≤ (commits.length : ℤ) := by
    have hm : |fraction| * (commits.length : ℚ) ≤ (commits.length : ℚ) := by
      calc |fraction| * (commits.length : ℚ) ≤ 1 * (commits.length : ℚ) :=
            mul_le_mul_of_nonneg_right habs (by positivity)
        _ = (commits.length : ℚ) := one_mul _
    calc ⌊|fraction| * (commits.length : ℚ)⌋ ≤ ⌊((commits.length : ℤ) : ℚ)⌋ :=
          Int.floor_le_floor (by exact_mod_cast hm)
      _ = (commits.length : ℤ) := Int.floor_intCast _
  unfold apply_scope
  rw [if_neg (not_not_intro ⟨h1, h2⟩)]
  by_cases hz : commits.length = 0 ∨ fraction = 0
  · rw [if_pos hz]
    refine ⟨[], commits, rfl, ?_⟩
    rcases hz with hz | hz
    · simp [hz]
    · simp [hz]
  · rw [if_neg hz]
    by_cases hk : (⌊|fraction| * (commits.length : ℚ)⌋).toNat = 0
    · rw [if_pos hk]
      exact ⟨[], commits, rfl, by simp; omega⟩
    · rw [if_neg hk]
      by_cases hpos : 0 < fraction
      · rw [if_pos hpos]
        refine ⟨_, _, rfl, ?_⟩
        rw [List.length_take]
        omega
      · rw [if_neg hpos]
        refine ⟨_, _, rfl, ?_⟩
        rw [List.length_drop]
        omega

/-- C3: under `author` mode `compute_timestamps` maps every selected
commit's identifier to that commit's own author instant, and under
`commit` mode to its own committer instant (commit identifiers are
content-addressed hashes, so the selected list carries no duplicates). -/
theorem author_commit_copy (entropy : ℕ → ℕ) (commits : List Commit)
    (config : ValidatedConfig)
    (hnd : (commits.map Commit.hash).Nodup) :
    (config.timestamp.mode = "author" →
      compute_timestamps entropy commits config = .ok (author_mode commits) ∧
      ∀ c ∈ commits, dget (author_mode commits) c.hash = some c.author_date) ∧
    (config.timestamp.mode = "commit" →
      compute_timestamps entropy commits config = .ok (commit_mode commits) ∧
      ∀ c ∈ commits, dget (commit_mode commits) c.hash = some c.committer_date) := by
  constructor
  · intro hmode
    constructor
    · unfold compute_timestamps
      rw [hmode]
      rw [if_pos rfl]
    · intro c hc
      exact dget_map_self (fun x => x.author_date) commits hnd c hc
  · intro hmode
    constructor
    · unfold compute_timestamps
      rw [hmode]
      rfl
    · intro c hc
      exact dget_map_self (fun x => x.committer_date) commits hnd c hc

/-- C4: on every successful synthetic run over a validated configuration,
the output instants in original commit order form a non-decreasing
sequence, and the advance-to-next-valid-instant step never returns an
instant earlier than its candidate. -/
theorem synthetic_nondecreasing (entropy : ℕ → ℕ) (commits : List Commit)
    (config : ValidatedConfig) (cal : ParsedCalendar) (work : ParsedWorkPatterns)
    (rnd : ParsedRandomness) (l : List (String × ℤ))
    (hmode : config.timestamp.mode = "synthetic")
    (hcal : config.calendar = some cal)
    (hwp : config.work_patterns = some work) (hw : work.Valid)
    (hrd : config.randomness = some rnd) (hr : rnd.Valid)
    (hok : compute_timestamps entropy commits config = .ok l) :
    List.Chain' (· ≤ ·) (l.map Prod.snd) ∧
    ∀ (candidate : ℤ) (r : RngState) (t : ℤ) (r2 : RngState),
      next_valid_datetime candidate cal.stop work r rnd.seconds_min
        rnd.seconds_max = .ok (t, r2) →
      candidate ≤ t := by
  have hsec : 0 ≤ rnd.seconds_min ∧ rnd.seconds_min ≤ rnd.seconds_max ∧
      rnd.seconds_max ≤ 59 := ⟨hr.2.2.1, hr.2.2.2.1, hr.2.2.2.2⟩
  unfold compute_timestamps at hok
  rw [hmode, if_neg (by decide), if_neg (by decide), if_pos rfl] at hok
  refine ⟨(synthetic_mode_spec hcal hwp hrd hw hr hok).1, ?_⟩
  intro candidate r t r2 hnv
  exact (next_valid_datetime_spec hw hsec hnv).1

/-- C5: on every successful synthetic run over a validated configuration,
every output instant's local calendar date maps to an enabled work block
and its time-of-day lies inside that block's `[start, end]` window,
inclusive through the full end minute. -/
theorem synthetic_window_containment (entropy : ℕ → ℕ) (commits : List Commit)
    (config : ValidatedConfig) (cal : ParsedCalendar) (work : ParsedWorkPatterns)
    (rnd : ParsedRandomness) (l : List (String × ℤ))
    (hmode : config.timestamp.mode = "synthetic")
    (hcal : config.calendar = some cal)
    (hwp : config.work_patterns = some work) (hw : work.Valid)
    (hrd : config.randomness = some rnd) (hr : rnd.Valid)
    (hok : compute_timestamps entropy commits config = .ok l) :
    ∀ p ∈ l, InWindow work p.2 := by
  unfold compute_timestamps at hok
  rw [hmode, if_neg (by decide), if_neg (by decide), if_pos rfl] at hok
  exact (synthetic_mode_spec hcal hwp hrd hw hr hok).2

/-- C6 (amended): when the validated synthetic calendar contains no
enabled date at all, `compute_timestamps` fails with the
"calendar window exhausted" engine error for every NON-EMPTY selected
list (an empty selection short-circuits to an empty map instead). -/
theorem synthetic_exhausted (entropy : ℕ → ℕ) (commits : List Commit)
    (config : ValidatedConfig) (cal : ParsedCalendar) (work : ParsedWorkPatterns)
    (rnd : ParsedRandomness)
    (hmode : config.timestamp.mode = "synthetic")
    (hcal : config.calendar = some cal)
    (hwp : config.work_patterns = some work)
    (hrd : config.randomness = some rnd)
    (hne : commits ≠ [])
    (hall : ∀ d, cal.start ≤ d → d ≤ cal.stop →
      (work_block_for_day d work).enabled = false) :
    compute_timestamps entropy commits config =
      .error "Synthetic calendar window exhausted" := by
  unfold compute_timestamps
  rw [hmode, if_neg (by decide), if_neg (by decide), if_pos rfl]
  cases commits with
  | nil => exact absurd rfl hne
  | cons c0 rest =>
    unfold synthetic_mode
    rw [hcal, hwp, hrd]
    dsimp only
    have hexh : next_enabled_day cal.start cal.stop work =
        .error "Synthetic calendar window exhausted" := by
      unfold next_enabled_day
      exact next_enabled_day_go_exhaust hall _ cal.start (le_refl _)
    rw [hexh]

/-- C7: with a non-null seed, two synthetic invocations with identical
commit list and configuration produce identical output maps, regardless
of the ambient entropy source — the generator is rebuilt from the seed
inside each invocation and no state is shared between invocations. -/
theorem synthetic_deterministic (e1 e2 : ℕ → ℕ) (commits : List Commit)
    (config : ValidatedConfig) (rnd : ParsedRandomness) (s : ℤ)
    (hmode : config.timestamp.mode = "synthetic")
    (hrd : config.randomness = some rnd) (hseed : rnd.seed = some s) :
    compute_timestamps e1 commits config = compute_timestamps e2 commits config := by
  have hsm : synthetic_mode e1 commits config = synthetic_mode e2 commits config := by
    unfold synthetic_mode
    cases commits with
    | nil => rfl
    | cons c0 rest =>
      rcases hc : config.calendar with _ | cal <;>
        rcases hwp : config.work_patterns with _ | wp <;> rw [hrd] <;> dsimp only <;>
        first
        | rfl
        | (rw [hseed]; dsimp only [mkStream])
  simp only [compute_timestamps, hmode]
  simp only [reduceIte]
  exact hsm

/-- C9: an empty selection yields an empty map in every recognised mode;
in synthetic mode the empty-list check precedes the internal-invariant
check on the synthetic sections, so no engine error is raised even when
those sections are absent. -/
theorem compute_timestamps_empty (entropy : ℕ → ℕ) (config : ValidatedConfig)
    (hmode : config.timestamp.mode = "author" ∨ config.timestamp.mode = "commit" ∨
      config.timestamp.mode = "synthetic") :
    compute_timestamps entropy [] config = .ok [] := by
  unfold compute_timestamps
  rcases hmode with h | h | h <;> rw [h]
  · rw [if_pos rfl]
    rfl
  · rw [if_neg (by decide), if_pos rfl]
    rfl
  · rw [if_neg (by decide), if_neg (by decide), if_pos rfl]
    rfl

/-- C8: for `author`/`commit` mode, `validate_config` rejects any present
synthetic section, citing the offending field path and the mode name; for
`synthetic` mode it rejects a missing section with the section name as
path (sections are inspected in the order calendar, work_patterns,
randomness, so each clause fixes the earlier sections). -/
theorem validate_config_mode_sections (tzdb : String → Bool) (cfg : Config) :
    ((cfg.timestamp.mode = "author" ∨ cfg.timestamp.mode = "commit") →
      (cfg.calendar ≠ none →
        validate_config tzdb cfg = .error ⟨"calendar",
          "calendar is not allowed in " ++ cfg.timestamp.mode ++ " mode"⟩) ∧
      (cfg.calendar = none → cfg.work_patterns ≠ none →
        validate_config tzdb cfg = .error ⟨"work_patterns",
          "work_patterns is not allowed in " ++ cfg.timestamp.mode ++ " mode"⟩) ∧
      (cfg.calendar = none → cfg.work_patterns = none → cfg.randomness ≠ none →
        validate_config tzdb cfg = .error ⟨"randomness",
          "randomness is not allowed in " ++ cfg.timestamp.mode ++ " mode"⟩)) ∧
    (cfg.timestamp.mode = "synthetic" →
      (cfg.calendar = none →
        validate_config tzdb cfg =
          .error ⟨"calendar", "missing calendar for synthetic mode"⟩) ∧
      (cfg.calendar ≠ none → cfg.work_patterns = none →
        validate_config tzdb cfg =
          .error ⟨"work_patterns", "missing work_patterns for synthetic mode"⟩) ∧
      (cfg.calendar ≠ none → cfg.work_patterns ≠ none → cfg.randomness = none →
        validate_config tzdb cfg =
          .error ⟨"randomness", "missing randomness for synthetic mode"⟩)) := by
  constructor
  · intro hm
    have hif : validate_config tzdb cfg =
        match forbid_synthetic_sections cfg cfg.timestamp.mode with
        | .error e => .error e
        | .ok _ => .ok ⟨cfg.timestamp, cfg.scope, none, none, none⟩ := by
      unfold validate_config
      rw [if_pos hm]
    refine ⟨?_, ?_, ?_⟩
    · intro hc
      rcases hcal : cfg.calendar with _ | cal
      · exact absurd hcal hc
      · rw [hif]
        unfold forbid_synthetic_sections
        rw [hcal]
    · intro hc hwne
      rcases hwp : cfg.work_patterns with _ | wp
      · exact absurd hwp hwne
      · rw [hif]
        unfold forbid_synthetic_sections
        rw [hc, hwp]
    · intro hc hw hrne
      rcases hrd : cfg.randomness with _ | rd
      · exact absurd hrd hrne
      · rw [hif]
        unfold forbid_synthetic_sections
        rw [hc, hw, hrd]
  · intro hs
    have hnm : ¬(cfg.timestamp.mode = "author" ∨ cfg.timestamp.mode = "commit") := by
      rw [hs]
      decide
    have hif : validate_config tzdb cfg =
        match cfg.calendar with
        | none => .error ⟨"calendar", "missing calendar for synthetic mode"⟩
        | some cal =>
          match cfg.work_patterns with
          | none => .error ⟨"work_patterns", "missing work_patterns for synthetic mode"⟩
          | some wp =>
            match cfg.randomness with
            | none => .error ⟨"randomness", "missing randomness for synthetic mode"⟩
            | some rd =>
              match validate_calendar tzdb cal with
              | .error e => .error e
              | .ok parsed_calendar =>
                match validate_work_patterns wp with
                | .error e => .error e
                | .ok parsed_work =>
                  match validate_randomness rd with
                  | .error e => .error e
                  | .ok parsed_rand =>
                    .ok ⟨cfg.timestamp, cfg.scope, some parsed_calendar,
                      some parsed_work, some parsed_rand⟩ := by
      unfold validate_config
      rw [if_neg hnm, if_neg (not_not_intro hs)]
    refine ⟨?_, ?_, ?_⟩
    · intro hc
      rw [hif, hc]
    · intro hcne hw
      rcases hcal : cfg.calendar with _ | cal
      · exact absurd hcal hcne
      · rw [hif, hcal, hw]
    · intro hcne hwne hr
      rcases hcal : cfg.calendar with _ | cal
      · exact absurd hcal hcne
      rcases hwp : cfg.work_patterns with _ | wp
      · exact absurd hwp hwne
      rw [hif, hcal, hwp, hr]

/-- C10: whenever `validate_config` succeeds, the returned configuration
carries the input's `timestamp` and `scope` sections unchanged, and for
`author`/`commit` modes its calendar, work_patterns and randomness
fields are all `none`. -/
theorem validate_config_frame (tzdb : String → Bool) (cfg : Config)
    (v : ValidatedConfig)
    (hok : validate_config tzdb cfg = .ok v) :
    v.timestamp = cfg.timestamp ∧ v.scope = cfg.scope ∧
    ((cfg.timestamp.mode = "author" ∨ cfg.timestamp.mode = "commit") →
      v.calendar = none ∧ v.work_patterns = none ∧ v.randomness = none) := by
  unfold validate_config at hok
  by_cases hm : cfg.timestamp.mode = "author" ∨ cfg.timestamp.mode = "commit"
  · rw [if_pos hm] at hok
    rcases hf : forbid_synthetic_sections cfg cfg.timestamp.mode with e | u <;>
      rw [hf] at hok <;> dsimp only at hok
    · exact absurd hok (by simp)
    · obtain rfl := (Except.ok.inj hok).symm
      exact ⟨rfl, rfl, fun _ => ⟨rfl, rfl, rfl⟩⟩
  · rw [if_neg hm] at hok
    by_cases hs : cfg.timestamp.mode ≠ "synthetic"
    · rw [if_pos hs] at hok
      exact absurd hok (by simp)
    rw [if_neg hs] at hok
    rcases hcal : cfg.calendar with _ | cal <;> rw [hcal] at hok <;>
      dsimp only at hok
    · exact absurd hok (by simp)
    rcases hwp : cfg.work_patterns with _ | wp <;> rw [hwp] at hok <;>
      dsimp only at hok
    · exact absurd hok (by simp)
    rcases hrd : cfg.randomness with _ | rd <;> rw [hrd] at hok <;>
      dsimp only at hok
    · exact absurd hok (by simp)
    rcases hvc : validate_calendar tzdb cal with e | pc <;> rw [hvc] at hok <;>
      dsimp only at hok
    · exact absurd hok (by simp)
    rcases hvw : validate_work_patterns wp with e | pw <;> rw [hvw] at hok <;>
      dsimp only at hok
    · exact absurd hok (by simp)
    rcases hvr : validate_randomness rd with e | pr <;> rw [hvr] at hok <;>
      dsimp only at hok
    · exact absurd hok (by simp)
    obtain rfl := (Except.ok.inj hok).symm
    exact ⟨rfl, rfl, fun hmode => absurd hmode hm⟩

/-! ### Witnesses: the claim theorems applied at concrete inputs -/

theorem scope_partition_witness :
    apply_scope commits3 ((1:ℚ)/2) = .ok ([cA], [cB, cC]) ∧
    [cA] ++ [cB, cC] = commits3 := by
  have heval : apply_scope commits3 ((1:ℚ)/2) = .ok ([cA], [cB, cC]) := by
    have hfl : (⌊|(1:ℚ)/2| * ((commits3.length : ℕ) : ℚ)⌋).toNat = 1 := by
      rw [show (commits3.length : ℚ) = 3 by norm_num [commits3],
        show |(1:ℚ)/2| = 1/2 by norm_num]
      norm_num
    unfold apply_scope
    rw [if_neg (not_not_intro ⟨by norm_num, by norm_num⟩)]
    rw [if_neg (by norm_num [commits3])]
    rw [hfl]
    norm_num [commits3]
  obtain ⟨sel, unt, happ, hpos, hneg, hzero⟩ :=
    scope_partition commits3 ((1:ℚ)/2) (by norm_num) (by norm_num)
  rw [heval] at happ
  simp only [Except.ok.injEq, Prod.mk.injEq] at happ
  obtain ⟨hsel, hunt⟩ := happ
  have hcat := (hpos (by norm_num)).1
  rw [← hsel, ← hunt] at hcat
  exact ⟨heval, hcat⟩

theorem scope_selected_length_witness :
    apply_scope commits3 ((1:ℚ)/2) = .ok ([cA], [cB, cC]) ∧
    (([cA] : List Commit).length : ℤ) = ⌊|(1:ℚ)/2| * (commits3.length : ℚ)⌋ := by
  have heval : apply_scope commits3 ((1:ℚ)/2) = .ok ([cA], [cB, cC]) := by
    have hfl : (⌊|(1:ℚ)/2| * ((commits3.length : ℕ) : ℚ)⌋).toNat = 1 := by
      rw [show (commits3.length : ℚ) = 3 by norm_num [commits3],
        show |(1:ℚ)/2| = 1/2 by norm_num]
      norm_num
    unfold apply_scope
    rw [if_neg (not_not_intro ⟨by norm_num, by norm_num⟩)]
    rw [if_neg (by norm_num [commits3])]
    rw [hfl]
    norm_num [commits3]
  obtain ⟨sel, unt, happ, hlen⟩ :=
    scope_selected_length commits3 ((1:ℚ)/2) (by norm_num) (by norm_num)
  rw [heval] at happ
  simp only [Except.ok.injEq, Prod.mk.injEq] at happ
  obtain ⟨hsel, hunt⟩ := happ
  rw [← hsel] at hlen
  exact ⟨heval, hlen⟩

theorem author_commit_copy_witness :
    compute_timestamps entropy0 [cA] cfgA = .ok (author_mode [cA]) ∧
    dget (author_mode [cA]) cA.hash = some cA.author_date ∧
    compute_timestamps entropy0 [cA] cfgC = .ok (commit_mode [cA]) ∧
    dget (commit_mode [cA]) cA.hash = some cA.committer_date := by
  have hA := (author_commit_copy entropy0 [cA] cfgA (by decide)).1 rfl
  have hC := (author_commit_copy entropy0 [cA] cfgC (by decide)).2 rfl
  exact ⟨hA.1, hA.2 cA (by simp), hC.1, hC.2 cA (by simp)⟩

theorem synthetic_nondecreasing_witness :
    List.Chain' (· ≤ ·)
      (((compute_timestamps entropy0 [cA, cB] cfgS).toOption.getD []).map Prod.snd) :=
  (synthetic_nondecreasing entropy0 [cA, cB] cfgS cal0S work0S rnd0S
    ((compute_timestamps entropy0 [cA, cB] cfgS).toOption.getD [])
    rfl rfl rfl (by decide) rfl (by decide) rfl).1

theorem synthetic_window_containment_witness :
    InWindow work0S
      (((compute_timestamps entropy0 [cA, cB] cfgS).toOption.getD []).headD ("", 0)).2 := by
  have h := synthetic_window_containment entropy0 [cA, cB] cfgS cal0S work0S rnd0S
    ((compute_timestamps entropy0 [cA, cB] cfgS).toOption.getD [])
    rfl rfl rfl (by decide) rfl (by decide) rfl
  exact h _ (by decide)

/-- C6 counterexample: the claim quantifies over EVERY selected list, but
with an empty selection the engine returns the empty map before looking
at the calendar, even though no date of `cfg0`'s window (one Monday,
Saturday-only pattern) has an enabled work block. -/
theorem synthetic_exhausted_counterexample :
    compute_timestamps entropy0 [] cfg0 = .ok [] ∧
    (work_block_for_day cal0E.start work0E).enabled = false ∧
    cal0E.start = cal0E.stop ∧ cfg0.timestamp.mode = "synthetic" ∧
    cfg0.calendar = some cal0E ∧ cfg0.work_patterns = some work0E := by
  exact ⟨rfl, rfl, rfl, rfl, rfl, rfl⟩

theorem synthetic_exhausted_witness :
    compute_timestamps entropy0 [cA] cfg0 =
      .error "Synthetic calendar window exhausted" := by
  apply synthetic_exhausted entropy0 [cA] cfg0 cal0E work0E rnd0S rfl rfl rfl rfl
    (by simp)
  intro d h1 h2
  have h1b : (19723 : ℤ) ≤ d := h1
  have h2b : d ≤ (19723 : ℤ) := h2
  have hd : d = 19723 := le_antisymm h2b h1b
  subst hd
  decide

theorem synthetic_deterministic_witness :
    compute_timestamps entropy1 [cA, cB] cfgS = compute_timestamps entropy2 [cA, cB] cfgS :=
  synthetic_deterministic entropy1 entropy2 [cA, cB] cfgS rnd0S 42 rfl rfl rfl

theorem validate_config_mode_sections_witness :
    validate_config tzdb0 rawA =
      .error ⟨"calendar", "calendar is not allowed in author mode"⟩ ∧
    validate_config tzdb0 rawS =
      .error ⟨"calendar", "missing calendar for synthetic mode"⟩ := by
  constructor
  · exact ((validate_config_mode_sections tzdb0 rawA).1 (Or.inl rfl)).1
      (by simp [rawA])
  · exact ((validate_config_mode_sections tzdb0 rawS).2 rfl).1 rfl

theorem compute_timestamps_empty_witness :
    compute_timestamps entropy0 [] cfgE = .ok [] :=
  compute_timestamps_empty entropy0 cfgE (Or.inr (Or.inr rfl))

theorem validate_config_frame_witness :
    validate_config tzdb0 rawOkA = .ok vOkA ∧
    vOkA.timestamp = rawOkA.timestamp ∧ vOkA.scope = rawOkA.scope ∧
    vOkA.calendar = none ∧ vOkA.work_patterns = none ∧ vOkA.randomness = none := by
  have h := validate_config_frame tzdb0 rawOkA vOkA rfl
  exact ⟨rfl, h.1, h.2.1, (h.2.2 (Or.inl rfl)).1, (h.2.2 (Or.inl rfl)).2.1,
    (h.2.2 (Or.inl rfl)).2.2⟩

end Synth
